import Mathlib

/-!
Shallow embedding of mozillians/users/managers.py: the privacy-aware
queryset layer (UserProfileValuesQuerySet, UserProfileQuerySet).

Python 2 / Django 1.x semantics are modelled explicitly:
  * a cell of a database row is a Value (string, integer, None, or an
    empty related queryset such as Group.objects.none());
  * Python 2 mixed-type < comparison: None is smaller than every
    integer, integers are smaller than every non-numeric value;
  * list.index raises ValueError when the element is absent (Except);
  * dict(zip(names, row)) gives later duplicate keys precedence.
-/

/-- A cell value of a profile row. -/
inductive Value where
  | vstr : String → Value
  | vint : Int → Value
  | vnone : Value
  | vqs : String → Value
deriving DecidableEq, Repr

/-- PRIVILEGED = 1 -/
def PRIVILEGED : Int := 1

/-- EMPLOYEES = 2 -/
def EMPLOYEES : Int := 2

/-- MOZILLIANS = 3 -/
def MOZILLIANS : Int := 3

/-- PUBLIC = 4 -/
def PUBLIC : Int := 4

/-- PRIVACY_CHOICES (the commented-out entries are omitted in the source). -/
def PRIVACY_CHOICES : List (Int × String) :=
  [(MOZILLIANS, "Mozillians"), (PUBLIC, "Public")]

/-- PUBLIC_INDEXABLE_FIELDS = ['full_name', 'ircname', 'email'] -/
def PUBLIC_INDEXABLE_FIELDS : List String := ["full_name", "ircname", "email"]

/-- DEFAULT_PRIVACY_FIELDS: field name to its redaction default. -/
def DEFAULT_PRIVACY_FIELDS : List (String × Value) :=
  [("photo", Value.vnone),
   ("full_name", Value.vstr ""),
   ("ircname", Value.vstr ""),
   ("email", Value.vstr ""),
   ("website", Value.vstr ""),
   ("bio", Value.vstr ""),
   ("city", Value.vstr ""),
   ("region", Value.vstr ""),
   ("country", Value.vstr ""),
   ("groups", Value.vqs "Group"),
   ("skills", Value.vqs "Skill"),
   ("languages", Value.vqs "Language"),
   ("vouched_by", Value.vnone),
   ("date_mozillian", Value.vnone),
   ("timezone", Value.vstr "")]

/-- The keys of DEFAULT_PRIVACY_FIELDS. -/
def privacyKeys : List String := DEFAULT_PRIVACY_FIELDS.map Prod.fst

/-- DEFAULT_PRIVACY_FIELDS[field] (dict access; the default is never
reached because every caller passes a key of the dict). -/
def defaultFor (field : String) : Value :=
  (DEFAULT_PRIVACY_FIELDS.lookup field).getD Value.vnone

/-- Python 2 comparison row[levelindex] < self._privacy_level, where the
right side is an int or None.  In Python 2, None is smaller than every
other value (so x < None is always False), None < int is True, and a
number is smaller than every non-numeric value (so str < int is False). -/
def py2ltLevel (a : Value) (lvl : Option Int) : Bool :=
  match lvl with
  | Option.none => false
  | Option.some l =>
    match a with
    | Value.vint n => decide (n < l)
    | Value.vnone => true
    | _ => false

/-- names.index(x): the first index of x, or ValueError when absent. -/
def listIndexE (names : List String) (x : String) : Except String Nat :=
  if x ∈ names then Except.ok (names.indexOf x)
  else Except.error (x ++ " is not in list")

/-- set(DEFAULT_PRIVACY_FIELDS) & set(names), enumerated in dict-key
order (Python set order is unspecified; the iterator result does not
depend on the order chosen). -/
def privacyFieldList (names : List String) : List String :=
  privacyKeys.filter (fun f => decide (f ∈ names))

/-- The list comprehension building privacy_fields: for each field,
first names.index('privacy_' + field), then names.index(field), each of
which can raise ValueError. -/
def privacyFieldsAux (names : List String) : List String → Except String (List (Nat × Nat × String))
  | [] => Except.ok []
  | f :: fs =>
    match listIndexE names ("privacy_" ++ f) with
    | Except.error e => Except.error e
    | Except.ok li =>
      match listIndexE names f with
      | Except.error e => Except.error e
      | Except.ok fi =>
        match privacyFieldsAux names fs with
        | Except.error e => Except.error e
        | Except.ok rest => Except.ok ((li, fi, f) :: rest)

/-- privacy_fields = [(names.index('privacy_' + f), names.index(f), f)
for f in set(DEFAULT_PRIVACY_FIELDS) & set(names)]. -/
def privacyFieldsE (names : List String) : Except String (List (Nat × Nat × String)) :=
  privacyFieldsAux names (privacyFieldList names)

/-- The per-row redaction loop: row = list(row); for (levelindex,
fieldindex, field) in privacy_fields: if row[levelindex] <
self._privacy_level: row[fieldindex] = DEFAULT_PRIVACY_FIELDS[field]. -/
def processRow (pf : List (Nat × Nat × String)) (lvl : Option Int) (row : List Value) : List Value :=
  pf.foldl
    (fun r t =>
      if py2ltLevel (r.getD t.1 Value.vnone) lvl then r.set t.2.1 (defaultFor t.2.2) else r)
    row

/-- UserProfileValuesQuerySet.iterator: names = extra_names + field_names
+ aggregate_names; compute privacy_fields (which may raise ValueError);
then for each fetched row yield dict(zip(names, redacted copy of row)).
The fetched rows are taken as a parameter (the database backend). -/
def valuesIterator (extraNames fieldNames aggregateNames : List String) (lvl : Option Int)
    (rows : List (List Value)) : Except String (List (List (String × Value))) :=
  let names := extraNames ++ fieldNames ++ aggregateNames
  match privacyFieldsE names with
  | Except.error e => Except.error e
  | Except.ok pf => Except.ok (rows.map (fun row => names.zip (processRow pf lvl row)))

/-- Python dict lookup for dict(pairs): the last pair with the given key
wins. -/
def dictGet (pairs : List (String × Value)) (k : String) : Option Value :=
  pairs.foldl (fun acc p => if p.1 = k then Option.some p.2 else acc) Option.none

/-! The object queryset (UserProfileQuerySet).  A profile record carries
the columns the claimed operations touch; the queryset holds a base row
source, an accumulated filter condition, and the Python attribute
_privacy_level, which may be absent (Option.none) or set to a value. -/

/-- The profile columns used by complete(), public_indexable() and
not_public_indexable(); privacy_email guards user__email. -/
structure Profile where
  full_name : String
  ircname : String
  user_email : String
  privacy_full_name : Int
  privacy_ircname : Int
  privacy_email : Int
deriving DecidableEq, Repr

/-- getattr(self, '_privacy_level', None). -/
def getattrPrivacyLevel (attr : Option (Option Int)) : Option Int :=
  attr.getD Option.none

/-- UserProfileQuerySet: base rows, accumulated filter, and the
_privacy_level attribute (absent or set). -/
structure UserProfileQuerySet where
  base : List Profile
  cond : Profile → Bool
  privacy_level_attr : Option (Option Int)

/-- A values queryset produced by cloning with klass=ValuesQuerySet;
only its _privacy_level attribute matters to the claims about cloning. -/
structure ValuesQS where
  privacy_level_attr : Option (Option Int)

namespace UserProfileQuerySet

/-- UserProfileQuerySet._clone: the clone always carries
_privacy_level = getattr(self, '_privacy_level', None). -/
def _clone (qs : UserProfileQuerySet) : UserProfileQuerySet :=
  { qs with privacy_level_attr := Option.some (getattrPrivacyLevel qs.privacy_level_attr) }

/-- QuerySet.all() = self._clone(). -/
def all (qs : UserProfileQuerySet) : UserProfileQuerySet := qs._clone

/-- QuerySet.filter(q): clone, then conjoin the condition. -/
def filter (qs : UserProfileQuerySet) (q : Profile → Bool) : UserProfileQuerySet :=
  { qs._clone with cond := fun p => qs.cond p && q p }

/-- QuerySet.exclude(q): clone, then conjoin the negated condition. -/
def exclude (qs : UserProfileQuerySet) (q : Profile → Bool) : UserProfileQuerySet :=
  { qs._clone with cond := fun p => qs.cond p && !q p }

/-- QuerySet.values(...): _clone with klass=ValuesQuerySet, which
UserProfileQuerySet._clone rewrites to UserProfileValuesQuerySet and
equips with the propagated privacy level. -/
def values (qs : UserProfileQuerySet) : ValuesQS :=
  { privacy_level_attr := Option.some (getattrPrivacyLevel qs.privacy_level_attr) }

/-- privacy_level(level=MOZILLIANS): set self._privacy_level = level,
then return self.all(). -/
def privacy_level (qs : UserProfileQuerySet) (level : Int) : UserProfileQuerySet :=
  UserProfileQuerySet.all { qs with privacy_level_attr := Option.some (Option.some level) }

/-- public_index_q: OR over PUBLIC_INDEXABLE_FIELDS of
Q(privacy_field=PUBLIC) & ~Q(field=''), with email read through
user__email. -/
def public_index_q (p : Profile) : Bool :=
  (p.privacy_full_name == PUBLIC && !(p.full_name == "")) ||
  (p.privacy_ircname == PUBLIC && !(p.ircname == "")) ||
  (p.privacy_email == PUBLIC && !(p.user_email == ""))

/-- complete(): exclude(full_name=''). -/
def complete (qs : UserProfileQuerySet) : UserProfileQuerySet :=
  qs.exclude (fun p => p.full_name == "")

/-- public_indexable(): complete().filter(public_index_q). -/
def public_indexable (qs : UserProfileQuerySet) : UserProfileQuerySet :=
  qs.complete.filter public_index_q

/-- not_public_indexable(): complete().exclude(public_index_q). -/
def not_public_indexable (qs : UserProfileQuerySet) : UserProfileQuerySet :=
  qs.complete.exclude public_index_q

/-- Evaluating the queryset: the base rows passing the condition. -/
def results (qs : UserProfileQuerySet) : List Profile :=
  qs.base.filter qs.cond

/-- An object yielded by UserProfileQuerySet.iterator: the profile with
its _privacy_level attribute set. -/
structure Obj where
  profile : Profile
  pl_attr : Option Int
deriving DecidableEq, Repr

/-- UserProfileQuerySet.iterator: each yielded object gets
obj._privacy_level = getattr(self, '_privacy_level', None). -/
def iterator (qs : UserProfileQuerySet) : List Obj :=
  qs.results.map (fun p => ⟨p, getattrPrivacyLevel qs.privacy_level_attr⟩)

end UserProfileQuerySet

namespace ValuesQS

/-- UserProfileValuesQuerySet._clone: the clone always carries
_privacy_level = getattr(self, '_privacy_level', None). -/
def _clone (v : ValuesQS) : ValuesQS :=
  { privacy_level_attr := Option.some (getattrPrivacyLevel v.privacy_level_attr) }

end ValuesQS

/-! Helper lemmas about the values iterator. -/

theorem processRow_nil (lvl : Option Int) (row : List Value) :
    processRow [] lvl row = row := rfl

theorem processRow_cons (t : Nat × Nat × String) (pf : List (Nat × Nat × String))
    (lvl : Option Int) (row : List Value) :
    processRow (t :: pf) lvl row =
      processRow pf lvl
        (if py2ltLevel (row.getD t.1 Value.vnone) lvl then row.set t.2.1 (defaultFor t.2.2)
         else row) := rfl

theorem processRow_append (a b : List (Nat × Nat × String)) (lvl : Option Int)
    (row : List Value) :
    processRow (a ++ b) lvl row = processRow b lvl (processRow a lvl row) :=
  List.foldl_append _ _ a b

theorem processRow_length (lvl : Option Int) :
    ∀ (pf : List (Nat × Nat × String)) (row : List Value),
      (processRow pf lvl row).length = row.length := by
  intro pf
  induction pf with
  | nil => intro row; rfl
  | cons t pf ih =>
    intro row
    rw [processRow_cons, ih]
    split
    · simp
    · rfl

theorem processRow_getElem?_ne (lvl : Option Int) (j : Nat) :
    ∀ (pf : List (Nat × Nat × String)) (row : List Value),
      (∀ t ∈ pf, t.2.1 ≠ j) → (processRow pf lvl row)[j]? = row[j]? := by
  intro pf
  induction pf with
  | nil => intro row _; rfl
  | cons t pf ih =>
    intro row hj
    rw [processRow_cons, ih _ (fun u hu => hj u (List.mem_cons_of_mem t hu))]
    split
    · exact List.getElem?_set_ne (hj t (List.mem_cons_self t pf))
    · rfl

theorem processRow_entry (lvl : Option Int) (li fi : Nat) (f : String)
    (a b : List (Nat × Nat × String)) (row : List Value)
    (hfia : ∀ t ∈ a, t.2.1 ≠ fi) (hfib : ∀ t ∈ b, t.2.1 ≠ fi)
    (hlia : ∀ t ∈ a, t.2.1 ≠ li)
    (hfi : fi < row.length) :
    (processRow (a ++ (li, fi, f) :: b) lvl row)[fi]? =
      Option.some
        (if py2ltLevel (row.getD li Value.vnone) lvl then defaultFor f
         else row.getD fi Value.vnone) := by
  rw [processRow_append]
  have h1 : (processRow a lvl row)[li]? = row[li]? := processRow_getElem?_ne lvl li a row hlia
  have h2 : (processRow a lvl row)[fi]? = row[fi]? := processRow_getElem?_ne lvl fi a row hfia
  have hlen1 : (processRow a lvl row).length = row.length := processRow_length lvl a row
  rw [processRow_cons]
  dsimp only
  have hcond : py2ltLevel ((processRow a lvl row).getD li Value.vnone) lvl
      = py2ltLevel (row.getD li Value.vnone) lvl := by
    rw [List.getD_eq_getElem?_getD, List.getD_eq_getElem?_getD, h1]
  rw [hcond]
  by_cases hc : py2ltLevel (row.getD li Value.vnone) lvl = true
  · rw [if_pos hc, if_pos hc, processRow_getElem?_ne lvl fi b _ hfib]
    exact List.getElem?_set_self (by rw [hlen1]; exact hfi)
  · rw [if_neg hc, if_neg hc, processRow_getElem?_ne lvl fi b _ hfib, h2,
      List.getElem?_eq_getElem hfi, List.getD_eq_getElem?_getD,
      List.getElem?_eq_getElem hfi]
    rfl

theorem listIndexE_ok (names : List String) (x : String) (i : Nat)
    (h : listIndexE names x = Except.ok i) : x ∈ names ∧ i = names.indexOf x := by
  rw [listIndexE] at h
  split at h
  · refine ⟨by assumption, ?_⟩
    injection h with h
    exact h.symm
  · exact absurd h (by simp)

theorem listIndexE_of_mem (names : List String) (x : String) (h : x ∈ names) :
    listIndexE names x = Except.ok (names.indexOf x) := by
  rw [listIndexE, if_pos h]

theorem listIndexE_of_not_mem (names : List String) (x : String) (h : x ∉ names) :
    listIndexE names x = Except.error (x ++ " is not in list") := by
  rw [listIndexE, if_neg h]

theorem privacyFieldsAux_ok (names : List String) :
    ∀ (fs : List String) (pf : List (Nat × Nat × String)),
      privacyFieldsAux names fs = Except.ok pf →
      (pf = fs.map (fun g => (names.indexOf ("privacy_" ++ g), names.indexOf g, g)) ∧
       ∀ g ∈ fs, ("privacy_" ++ g) ∈ names ∧ g ∈ names) := by
  intro fs
  induction fs with
  | nil =>
    intro pf h
    refine ⟨?_, by intro g hg; simp at hg⟩
    injection h with h
    exact h.symm
  | cons f fs ih =>
    intro pf h
    rw [privacyFieldsAux] at h
    rcases hli : listIndexE names ("privacy_" ++ f) with e | li
    · rw [hli] at h; exact absurd h (by simp)
    rw [hli] at h
    rcases hfi : listIndexE names f with e | fi
    · rw [hfi] at h; exact absurd h (by simp)
    rw [hfi] at h
    rcases hrest : privacyFieldsAux names fs with e | rest
    · rw [hrest] at h; exact absurd h (by simp)
    rw [hrest] at h
    injection h with h
    subst h
    obtain ⟨hmem1, heq1⟩ := listIndexE_ok names ("privacy_" ++ f) li hli
    obtain ⟨hmem2, heq2⟩ := listIndexE_ok names f fi hfi
    obtain ⟨ha, hb⟩ := ih rest hrest
    subst heq1
    subst heq2
    subst ha
    refine ⟨rfl, ?_⟩
    intro g hg
    rcases List.mem_cons.mp hg with hgf | hgfs
    · subst hgf; exact ⟨hmem1, hmem2⟩
    · exact hb g hgfs

theorem dictGet_foldl_of_not_mem (k : String) :
    ∀ (pairs : List (String × Value)) (acc : Option Value),
      (∀ p ∈ pairs, p.1 ≠ k) →
      pairs.foldl (fun acc p => if p.1 = k then Option.some p.2 else acc) acc = acc := by
  intro pairs
  induction pairs with
  | nil => intro acc _; rfl
  | cons p ps ih =>
    intro acc h
    rw [List.foldl_cons, if_neg (h p (List.mem_cons_self p ps))]
    exact ih acc (fun q hq => h q (List.mem_cons_of_mem p hq))

theorem dictGet_zip (k : String) :
    ∀ (names : List String) (r : List Value),
      names.Nodup → k ∈ names → names.length ≤ r.length →
      dictGet (names.zip r) k = r[names.indexOf k]? := by
  intro names
  induction names with
  | nil => intro r _ hk _; simp at hk
  | cons n ns ih =>
    intro r hnd hk hlen
    cases r with
    | nil => simp at hlen
    | cons v vs =>
      rw [List.zip_cons_cons]
      by_cases he : n = k
      · subst he
        simp only [dictGet, List.foldl_cons]
        rw [if_pos trivial]
        have hnk : n ∉ ns := (List.nodup_cons.mp hnd).1
        rw [dictGet_foldl_of_not_mem n (ns.zip vs) (Option.some v)
          (fun p hp hpk => hnk (hpk ▸ (List.of_mem_zip hp).1))]
        rw [List.indexOf_cons_self]
        simp
      · simp only [dictGet, List.foldl_cons]
        rw [if_neg (by simpa using he)]
        have hnd2 : ns.Nodup := (List.nodup_cons.mp hnd).2
        have hk2 : k ∈ ns := by
          rcases List.mem_cons.mp hk with h | h
          · exact absurd h.symm he
          · exact h
        have hlen2 : ns.length ≤ vs.length := by
          simpa using Nat.le_of_succ_le_succ (by simpa using hlen)
        have hrec : dictGet (ns.zip vs) k = vs[ns.indexOf k]? := ih vs hnd2 hk2 hlen2
        rw [dictGet] at hrec
        rw [hrec, List.indexOf_cons_ne ns he]
        simp

theorem privacyKeys_nodup : privacyKeys.Nodup := by decide

theorem privacyKeys_no_companion : ∀ x ∈ privacyKeys, ("privacy_" ++ x) ∉ privacyKeys := by decide

theorem valuesIterator_ok_elim (extra fns agg : List String) (lvl : Option Int)
    (rows : List (List Value)) (res : List (List (String × Value)))
    (hok : valuesIterator extra fns agg lvl rows = Except.ok res) :
    ∃ pf, privacyFieldsE (extra ++ fns ++ agg) = Except.ok pf ∧
      res = rows.map (fun row => (extra ++ fns ++ agg).zip (processRow pf lvl row)) := by
  simp only [valuesIterator] at hok
  rcases hpf : privacyFieldsE (extra ++ fns ++ agg) with e | pf
  · rw [hpf] at hok
    exact absurd hok (by simp)
  · rw [hpf] at hok
    injection hok with hok
    exact ⟨pf, rfl, hok.symm⟩

theorem valuesIterator_field (extra fns agg : List String) (lvl : Option Int)
    (rows : List (List Value)) (res : List (List (String × Value)))
    (f : String) (i : Nat) (row : List Value) (drow : List (String × Value))
    (hnd : (extra ++ fns ++ agg).Nodup)
    (hfkey : f ∈ privacyKeys)
    (hfmem : f ∈ extra ++ fns ++ agg)
    (hok : valuesIterator extra fns agg lvl rows = Except.ok res)
    (hrow : rows[i]? = Option.some row)
    (hres : res[i]? = Option.some drow)
    (hlen : row.length = (extra ++ fns ++ agg).length) :
    dictGet drow f =
      Option.some
        (if py2ltLevel (row.getD ((extra ++ fns ++ agg).indexOf ("privacy_" ++ f)) Value.vnone) lvl
         then defaultFor f
         else row.getD ((extra ++ fns ++ agg).indexOf f) Value.vnone) := by
  obtain ⟨pf, hpf, hresall⟩ := valuesIterator_ok_elim extra fns agg lvl rows res hok
  set names := extra ++ fns ++ agg with hn
  have hdrow : drow = names.zip (processRow pf lvl row) := by
    rw [hresall, List.getElem?_map, hrow] at hres
    simp only [Option.map_some'] at hres
    exact (Option.some.inj hres).symm
  obtain ⟨hpfeq, hpfmem⟩ := privacyFieldsAux_ok names (privacyFieldList names) pf hpf
  have hfl : f ∈ privacyFieldList names := by
    rw [privacyFieldList, List.mem_filter]
    exact ⟨hfkey, by simpa using hfmem⟩
  have hflnd : (privacyFieldList names).Nodup := privacyKeys_nodup.filter _
  obtain ⟨u, w, huw⟩ := List.append_of_mem hfl
  have hfu : f ∉ u ∧ f ∉ w := by
    rw [huw, List.nodup_append] at hflnd
    obtain ⟨h1, h2, h3⟩ := hflnd
    exact ⟨fun hf => h3 hf (List.mem_cons_self f w), (List.nodup_cons.mp h2).1⟩
  have husub : ∀ g ∈ u, g ∈ privacyFieldList names := by
    intro g hg; rw [huw]; exact List.mem_append_left _ hg
  have hwsub : ∀ g ∈ w, g ∈ privacyFieldList names := by
    intro g hg; rw [huw]; exact List.mem_append_right _ (List.mem_cons_of_mem f hg)
  have hkeysub : ∀ g ∈ privacyFieldList names, g ∈ privacyKeys := by
    intro g hg
    exact (List.mem_filter.mp hg).1
  have hne_field : ∀ g, g ∈ privacyFieldList names → g ≠ f →
      names.indexOf g ≠ names.indexOf f := by
    intro g hg hne heq
    exact hne ((List.indexOf_inj (hpfmem g hg).2 hfmem).mp heq)
  have hne_level : ∀ g, g ∈ privacyFieldList names →
      names.indexOf g ≠ names.indexOf ("privacy_" ++ f) := by
    intro g hg heq
    have hgp : g = "privacy_" ++ f :=
      (List.indexOf_inj (hpfmem g hg).2 (hpfmem f hfl).1).mp heq
    exact privacyKeys_no_companion f hfkey (hgp ▸ hkeysub g hg)
  have hpfdec : pf =
      u.map (fun g => (names.indexOf ("privacy_" ++ g), names.indexOf g, g))
        ++ (names.indexOf ("privacy_" ++ f), names.indexOf f, f)
          :: w.map (fun g => (names.indexOf ("privacy_" ++ g), names.indexOf g, g)) := by
    rw [hpfeq, huw, List.map_append, List.map_cons]
  have hentry := processRow_entry lvl (names.indexOf ("privacy_" ++ f)) (names.indexOf f) f
    (u.map (fun g => (names.indexOf ("privacy_" ++ g), names.indexOf g, g)))
    (w.map (fun g => (names.indexOf ("privacy_" ++ g), names.indexOf g, g)))
    row
    (by
      intro t ht
      obtain ⟨g, hg, hteq⟩ := List.mem_map.mp ht
      rw [← hteq]
      exact hne_field g (husub g hg) (fun hgf => hfu.1 (hgf ▸ hg)))
    (by
      intro t ht
      obtain ⟨g, hg, hteq⟩ := List.mem_map.mp ht
      rw [← hteq]
      exact hne_field g (hwsub g hg) (fun hgf => hfu.2 (hgf ▸ hg)))
    (by
      intro t ht
      obtain ⟨g, hg, hteq⟩ := List.mem_map.mp ht
      rw [← hteq]
      exact hne_level g (husub g hg))
    (by rw [hlen]; exact List.indexOf_lt_length.mpr hfmem)
  rw [hdrow, dictGet_zip f names (processRow pf lvl row) hnd hfmem
    (by rw [processRow_length, hlen]), hpfdec]
  exact hentry

theorem processRow_none_level (pf : List (Nat × Nat × String)) :
    ∀ row, processRow pf Option.none row = row := by
  induction pf with
  | nil => intro row; rfl
  | cons t pf ih =>
    intro row
    rw [processRow_cons,
      show py2ltLevel (row.getD t.1 Value.vnone) Option.none = false from rfl,
      if_neg (by simp)]
    exact ih row

theorem privacyFieldsAux_ok_of_mem (names : List String) :
    ∀ fs : List String, (∀ g ∈ fs, ("privacy_" ++ g) ∈ names ∧ g ∈ names) →
      ∃ pf, privacyFieldsAux names fs = Except.ok pf := by
  intro fs
  induction fs with
  | nil => intro _; exact ⟨[], rfl⟩
  | cons f fs ih =>
    intro h
    obtain ⟨h1, h2⟩ := h f (List.mem_cons_self f fs)
    obtain ⟨rest, hrest⟩ := ih (fun g hg => h g (List.mem_cons_of_mem f hg))
    refine ⟨(names.indexOf ("privacy_" ++ f), names.indexOf f, f) :: rest, ?_⟩
    rw [privacyFieldsAux, listIndexE_of_mem names _ h1, listIndexE_of_mem names _ h2, hrest]

theorem except_error_or_ok {ε α : Type} (x : Except ε α) :
    (∃ e, x = Except.error e) ∨ (∃ a, x = Except.ok a) := by
  cases x with
  | error e => exact Or.inl ⟨e, rfl⟩
  | ok a => exact Or.inr ⟨a, rfl⟩

theorem privacyFieldsE_error_iff (names : List String) :
    (∃ e, privacyFieldsE names = Except.error e) ↔
      ∃ g ∈ privacyKeys, g ∈ names ∧ ("privacy_" ++ g) ∉ names := by
  constructor
  · rintro ⟨e, he⟩
    by_contra hno
    push_neg at hno
    have hall : ∀ g ∈ privacyFieldList names, ("privacy_" ++ g) ∈ names ∧ g ∈ names := by
      intro g hg
      obtain ⟨hgk, hgn⟩ := List.mem_filter.mp hg
      have hgn2 : g ∈ names := by simpa using hgn
      exact ⟨hno g hgk hgn2, hgn2⟩
    obtain ⟨pf, hpf⟩ := privacyFieldsAux_ok_of_mem names (privacyFieldList names) hall
    rw [privacyFieldsE] at he
    rw [hpf] at he
    exact absurd he (by simp)
  · rintro ⟨g, hgk, hgn, hgp⟩
    rcases except_error_or_ok (privacyFieldsE names) with h | h
    · exact h
    · obtain ⟨pf, hpf⟩ := h
      obtain ⟨_, hmem⟩ := privacyFieldsAux_ok names (privacyFieldList names) pf hpf
      have hgl : g ∈ privacyFieldList names := by
        rw [privacyFieldList, List.mem_filter]
        exact ⟨hgk, by simpa using hgn⟩
      exact absurd (hmem g hgl).1 hgp

theorem valuesIterator_error_iff (extra fns agg : List String) (lvl : Option Int)
    (rows : List (List Value)) :
    (∃ e, valuesIterator extra fns agg lvl rows = Except.error e) ↔
      (∃ e, privacyFieldsE (extra ++ fns ++ agg) = Except.error e) := by
  constructor
  · rintro ⟨e, he⟩
    simp only [valuesIterator] at he
    rcases hpf : privacyFieldsE (extra ++ fns ++ agg) with e2 | pf
    · exact ⟨e2, rfl⟩
    · rw [hpf] at he
      exact absurd he (by simp)
  · rintro ⟨e, he⟩
    refine ⟨e, ?_⟩
    simp only [valuesIterator]
    rw [he]

theorem valuesIterator_frame (extra fns agg : List String) (lvl : Option Int)
    (rows : List (List Value)) (res : List (List (String × Value)))
    (i : Nat) (row : List Value) (drow : List (String × Value))
    (hok : valuesIterator extra fns agg lvl rows = Except.ok res)
    (hrow : rows[i]? = Option.some row)
    (hres : res[i]? = Option.some drow)
    (j : Nat) (nm : String) (v : Value)
    (hj : (extra ++ fns ++ agg)[j]? = Option.some nm)
    (hnm : nm ∉ privacyKeys)
    (hv : row[j]? = Option.some v) :
    drow[j]? = Option.some (nm, v) := by
  obtain ⟨pf, hpf, hresall⟩ := valuesIterator_ok_elim extra fns agg lvl rows res hok
  set names := extra ++ fns ++ agg
  have hdrow : drow = names.zip (processRow pf lvl row) := by
    rw [hresall, List.getElem?_map, hrow] at hres
    simp only [Option.map_some'] at hres
    exact (Option.some.inj hres).symm
  obtain ⟨hpfeq, hpfmem⟩ := privacyFieldsAux_ok names (privacyFieldList names) pf hpf
  have hne : ∀ t ∈ pf, t.2.1 ≠ j := by
    intro t ht hj2
    rw [hpfeq] at ht
    obtain ⟨g, hg, hteq⟩ := List.mem_map.mp ht
    have hidx : names.indexOf g = j := by rw [← hteq] at hj2; exact hj2
    have hsome : names[j]? = Option.some g := by
      rw [← hidx]; exact List.getElem?_indexOf (hpfmem g hg).2
    rw [hj] at hsome
    refine hnm ?_
    rw [Option.some.inj hsome]
    exact (List.mem_filter.mp hg).1
  have hproc : (processRow pf lvl row)[j]? = row[j]? :=
    processRow_getElem?_ne lvl j pf row hne
  rw [hdrow, List.getElem?_zip_eq_some]
  exact ⟨hj, by rw [hproc]; exact hv⟩

theorem valuesIterator_field_stored (extra fns agg : List String) (L : Int)
    (rows : List (List Value)) (res : List (List (String × Value)))
    (f : String) (i : Nat) (row : List Value) (drow : List (String × Value))
    (s : Int) (v : Value)
    (hnd : (extra ++ fns ++ agg).Nodup)
    (hfkey : f ∈ privacyKeys)
    (hfmem : f ∈ extra ++ fns ++ agg)
    (hok : valuesIterator extra fns agg (Option.some L) rows = Except.ok res)
    (hrow : rows[i]? = Option.some row)
    (hres : res[i]? = Option.some drow)
    (hlen : row.length = (extra ++ fns ++ agg).length)
    (hstored : row[(extra ++ fns ++ agg).indexOf ("privacy_" ++ f)]? = Option.some (Value.vint s))
    (hval : row[(extra ++ fns ++ agg).indexOf f]? = Option.some v) :
    dictGet drow f = Option.some (if s < L then defaultFor f else v) := by
  have h := valuesIterator_field extra fns agg (Option.some L) rows res f i row drow
    hnd hfkey hfmem hok hrow hres hlen
  rw [List.getD_eq_getElem?_getD, List.getD_eq_getElem?_getD, hstored, hval] at h
  simp only [Option.getD_some] at h
  rw [show py2ltLevel (Value.vint s) (Option.some L) = decide (s < L) from rfl] at h
  rw [h]
  by_cases hs : s < L
  · rw [if_pos (decide_eq_true hs), if_pos hs]
  · rw [if_neg (by simpa using hs), if_neg hs]

/-- C5: the privacy levels form a strictly ordered enumeration:
PRIVILEGED < EMPLOYEES < MOZILLIANS < PUBLIC. -/
theorem privacy_levels_strictly_ordered :
    PRIVILEGED < EMPLOYEES ∧ EMPLOYEES < MOZILLIANS ∧ MOZILLIANS < PUBLIC := by
  decide

/-- C1: for every row yielded by the privacy-aware values iterator and every
profile field f whose name and privacy companion column are both selected,
with requested viewer level L: if the stored privacy level s of f is
strictly less than L, the yielded row maps f to DEFAULT_PRIVACY_FIELDS[f];
otherwise it maps f to its stored value unchanged. -/
theorem values_iterator_redacts_fields_below_requested_level
    (extra fns agg : List String) (L : Int)
    (rows : List (List Value)) (res : List (List (String × Value)))
    (f : String) (i : Nat) (row : List Value) (drow : List (String × Value))
    (s : Int) (v : Value)
    (hnd : (extra ++ fns ++ agg).Nodup)
    (hfkey : f ∈ privacyKeys)
    (hfmem : f ∈ extra ++ fns ++ agg)
    (hpmem : ("privacy_" ++ f) ∈ extra ++ fns ++ agg)
    (hok : valuesIterator extra fns agg (Option.some L) rows = Except.ok res)
    (hrow : rows[i]? = Option.some row)
    (hres : res[i]? = Option.some drow)
    (hlen : row.length = (extra ++ fns ++ agg).length)
    (hstored : row[(extra ++ fns ++ agg).indexOf ("privacy_" ++ f)]? = Option.some (Value.vint s))
    (hval : row[(extra ++ fns ++ agg).indexOf f]? = Option.some v) :
    dictGet drow f = Option.some (if s < L then defaultFor f else v) :=
  valuesIterator_field_stored extra fns agg L rows res f i row drow s v
    hnd hfkey hfmem hok hrow hres hlen hstored hval

/-- Witness for C1: a concrete query at viewer level MOZILLIANS where
ircname (stored level EMPLOYEES) is redacted. -/
theorem values_iterator_redacts_fields_below_requested_level_witness :
    dictGet [("full_name", Value.vstr "Alice"), ("privacy_full_name", Value.vint 4),
      ("ircname", Value.vstr ""), ("privacy_ircname", Value.vint 2)] "ircname"
      = Option.some (if (2 : Int) < 3 then defaultFor "ircname" else Value.vstr "ali") :=
  values_iterator_redacts_fields_below_requested_level
    [] ["full_name", "privacy_full_name", "ircname", "privacy_ircname"] [] 3
    [[Value.vstr "Alice", Value.vint 4, Value.vstr "ali", Value.vint 2]]
    [[("full_name", Value.vstr "Alice"), ("privacy_full_name", Value.vint 4),
      ("ircname", Value.vstr ""), ("privacy_ircname", Value.vint 2)]]
    "ircname" 0
    [Value.vstr "Alice", Value.vint 4, Value.vstr "ali", Value.vint 2]
    [("full_name", Value.vstr "Alice"), ("privacy_full_name", Value.vint 4),
      ("ircname", Value.vstr ""), ("privacy_ircname", Value.vint 2)]
    2 (Value.vstr "ali")
    (by decide) (by decide) (by decide) (by decide) (by rfl) (by rfl) (by rfl)
    (by rfl) (by rfl) (by rfl)

/-- C2 counterexample: with viewer level MOZILLIANS (3) strictly below the
stored level PUBLIC (4) of full_name, the claim says the field is replaced
by its default, but the iterator yields the stored value unchanged. -/
theorem viewer_below_stored_level_not_redacted :
    MOZILLIANS < PUBLIC ∧
    valuesIterator [] ["full_name", "privacy_full_name"] [] (Option.some MOZILLIANS)
        [[Value.vstr "Alice", Value.vint PUBLIC]]
      = Except.ok [[("full_name", Value.vstr "Alice"), ("privacy_full_name", Value.vint PUBLIC)]] ∧
    Value.vstr "Alice" ≠ defaultFor "full_name" := by
  refine ⟨by decide, by rfl, by decide⟩

/-- C2 (amended): a field's value is replaced by its defined default exactly
when the field's STORED privacy level is strictly below the viewer's
requested level (redaction is triggered by stored level < viewer level,
not viewer level < stored level). -/
theorem values_iterator_redaction_iff_stored_below_viewer
    (extra fns agg : List String) (L : Int)
    (rows : List (List Value)) (res : List (List (String × Value)))
    (f : String) (i : Nat) (row : List Value) (drow : List (String × Value))
    (s : Int) (v : Value)
    (hnd : (extra ++ fns ++ agg).Nodup)
    (hfkey : f ∈ privacyKeys)
    (hfmem : f ∈ extra ++ fns ++ agg)
    (hok : valuesIterator extra fns agg (Option.some L) rows = Except.ok res)
    (hrow : rows[i]? = Option.some row)
    (hres : res[i]? = Option.some drow)
    (hlen : row.length = (extra ++ fns ++ agg).length)
    (hstored : row[(extra ++ fns ++ agg).indexOf ("privacy_" ++ f)]? = Option.some (Value.vint s))
    (hval : row[(extra ++ fns ++ agg).indexOf f]? = Option.some v)
    (hv : v ≠ defaultFor f) :
    dictGet drow f = Option.some (defaultFor f) ↔ s < L := by
  rw [valuesIterator_field_stored extra fns agg L rows res f i row drow s v
    hnd hfkey hfmem hok hrow hres hlen hstored hval]
  constructor
  · intro he
    by_contra hs
    rw [if_neg hs] at he
    exact hv (Option.some.inj he)
  · intro hs
    rw [if_pos hs]

/-- Witness for the amended C2: full_name stored at PUBLIC is not redacted
for a MOZILLIANS viewer, and indeed 4 < 3 is false. -/
theorem values_iterator_redaction_iff_stored_below_viewer_witness :
    (dictGet [("full_name", Value.vstr "Alice"), ("privacy_full_name", Value.vint 4)]
        "full_name" = Option.some (defaultFor "full_name")) ↔ (4 : Int) < 3 :=
  values_iterator_redaction_iff_stored_below_viewer
    [] ["full_name", "privacy_full_name"] [] 3
    [[Value.vstr "Alice", Value.vint 4]]
    [[("full_name", Value.vstr "Alice"), ("privacy_full_name", Value.vint 4)]]
    "full_name" 0
    [Value.vstr "Alice", Value.vint 4]
    [("full_name", Value.vstr "Alice"), ("privacy_full_name", Value.vint 4)]
    4 (Value.vstr "Alice")
    (by decide) (by decide) (by decide) (by rfl) (by rfl) (by rfl) (by rfl)
    (by rfl) (by rfl) (by decide)

/-- C4 counterexample: selecting the privacy-controlled field full_name in
values() without its privacy companion column makes the iterator itself
fail with the built-in ValueError raised by names.index - an error mode
introduced by this layer's own field/index bookkeeping, not a host
framework query/database error. -/
theorem values_iterator_missing_companion_value_error :
    valuesIterator [] ["full_name"] [] (Option.some MOZILLIANS) [[Value.vstr "x"]]
      = Except.error "privacy_full_name is not in list" := by rfl

/-- C4 (amended): the layer defines no custom exception classes, but its
values iterator's own index bookkeeping does introduce a failure mode: the
iterator raises (a built-in ValueError from list.index) exactly when some
privacy-controlled field is selected while its privacy companion column is
not. -/
theorem values_iterator_error_iff_missing_companion
    (extra fns agg : List String) (lvl : Option Int) (rows : List (List Value)) :
    (∃ e, valuesIterator extra fns agg lvl rows = Except.error e) ↔
      ∃ g ∈ privacyKeys, g ∈ (extra ++ fns ++ agg) ∧
        ("privacy_" ++ g) ∉ (extra ++ fns ++ agg) := by
  rw [valuesIterator_error_iff, privacyFieldsE_error_iff]

/-- C8: when privacy_level() was never called the level attribute is None,
the Python 2 comparison stored < None is false for every cell value, and
the values iterator performs no redaction at all: every yielded row is the
zip of the selected names with the fetched row unchanged. -/
theorem values_iterator_no_redaction_without_level
    (extra fns agg : List String) (rows : List (List Value))
    (res : List (List (String × Value)))
    (hok : valuesIterator extra fns agg Option.none rows = Except.ok res) :
    (∀ a : Value, py2ltLevel a Option.none = false) ∧
      res = rows.map (fun r => (extra ++ fns ++ agg).zip r) := by
  refine ⟨fun a => rfl, ?_⟩
  obtain ⟨pf, hpf, hresall⟩ := valuesIterator_ok_elim extra fns agg Option.none rows res hok
  rw [hresall]
  simp only [processRow_none_level]

/-- Witness for C8: a row whose stored levels are low is still yielded
unchanged when no privacy level was requested. -/
theorem values_iterator_no_redaction_without_level_witness :
    [[("full_name", Value.vstr "Alice"), ("privacy_full_name", Value.vint 1)]]
      = [[Value.vstr "Alice", Value.vint 1]].map
          (fun r => ([] ++ ["full_name", "privacy_full_name"] ++ []).zip r) :=
  (values_iterator_no_redaction_without_level [] ["full_name", "privacy_full_name"] []
    [[Value.vstr "Alice", Value.vint 1]]
    [[("full_name", Value.vstr "Alice"), ("privacy_full_name", Value.vint 1)]]
    (by rfl)).2

/-- C3: redaction happens on a fresh copy of each fetched row, so every
yielded dict preserves, at every selected column that is not a
privacy-controlled profile field - in particular at every selected privacy
companion column - exactly the value of the underlying fetched row, which
the iterator leaves unchanged. -/
theorem values_iterator_leaves_other_columns_unchanged
    (extra fns agg : List String) (lvl : Option Int)
    (rows : List (List Value)) (res : List (List (String × Value)))
    (i : Nat) (row : List Value) (drow : List (String × Value))
    (hok : valuesIterator extra fns agg lvl rows = Except.ok res)
    (hrow : rows[i]? = Option.some row)
    (hres : res[i]? = Option.some drow) :
    (∀ (j : Nat) (nm : String) (v : Value),
        (extra ++ fns ++ agg)[j]? = Option.some nm → nm ∉ privacyKeys →
        row[j]? = Option.some v → drow[j]? = Option.some (nm, v)) ∧
    (∀ (j : Nat) (g : String) (v : Value), g ∈ privacyKeys →
        (extra ++ fns ++ agg)[j]? = Option.some ("privacy_" ++ g) →
        row[j]? = Option.some v → drow[j]? = Option.some ("privacy_" ++ g, v)) := by
  refine ⟨?_, ?_⟩
  · intro j nm v hj hnm hv
    exact valuesIterator_frame extra fns agg lvl rows res i row drow hok hrow hres
      j nm v hj hnm hv
  · intro j g v hgk hj hv
    exact valuesIterator_frame extra fns agg lvl rows res i row drow hok hrow hres
      j ("privacy_" ++ g) v hj (privacyKeys_no_companion g hgk) hv

/-- Witness for C3: the privacy_full_name companion column survives the
redacting query unchanged. -/
theorem values_iterator_leaves_other_columns_unchanged_witness :
    [("full_name", Value.vstr "Alice"), ("privacy_full_name", Value.vint 4),
      ("ircname", Value.vstr ""), ("privacy_ircname", Value.vint 2)][1]?
      = Option.some ("privacy_" ++ "full_name", Value.vint 4) :=
  (values_iterator_leaves_other_columns_unchanged
    [] ["full_name", "privacy_full_name", "ircname", "privacy_ircname"] [] (Option.some 3)
    [[Value.vstr "Alice", Value.vint 4, Value.vstr "ali", Value.vint 2]]
    [[("full_name", Value.vstr "Alice"), ("privacy_full_name", Value.vint 4),
      ("ircname", Value.vstr ""), ("privacy_ircname", Value.vint 2)]]
    0
    [Value.vstr "Alice", Value.vint 4, Value.vstr "ali", Value.vint 2]
    [("full_name", Value.vstr "Alice"), ("privacy_full_name", Value.vint 4),
      ("ircname", Value.vstr ""), ("privacy_ircname", Value.vint 2)]
    (by rfl) (by rfl) (by rfl)).2
    1 "full_name" (Value.vint 4) (by decide) (by rfl) (by rfl)

/-- C6: every object yielded by the object-queryset iterator after
privacy_level(L) was called carries the requested level: its
_privacy_level attribute equals L. -/
theorem object_iterator_sets_requested_privacy_level
    (qs : UserProfileQuerySet) (L : Int) :
    ∀ obj ∈ (qs.privacy_level L).iterator, obj.pl_attr = Option.some L := by
  intro obj hobj
  obtain ⟨p, hp, heq⟩ := List.mem_map.mp hobj
  rw [← heq]
  rfl

/-- Witness for C6 on a one-profile queryset at level MOZILLIANS. -/
theorem object_iterator_sets_requested_privacy_level_witness :
    (UserProfileQuerySet.Obj.mk (Profile.mk "Alice" "ali" "a@b.c" 4 3 3)
      (Option.some 3)).pl_attr = Option.some 3 :=
  object_iterator_sets_requested_privacy_level
    (UserProfileQuerySet.mk [Profile.mk "Alice" "ali" "a@b.c" 4 3 3]
      (fun _ => true) Option.none) 3
    (UserProfileQuerySet.Obj.mk (Profile.mk "Alice" "ali" "a@b.c" 4 3 3) (Option.some 3))
    (by decide)

/-- C7: once privacy_level(L) is set, every queryset derived by cloning -
filter, exclude, all, plain _clone, conversion to a values queryset, and
clones of the values queryset - carries the same level L; and a queryset
on which privacy_level() was never called clones to level None. -/
theorem privacy_level_preserved_by_cloning
    (qs : UserProfileQuerySet) (L : Int) (q1 q2 : Profile → Bool) :
    ((qs.privacy_level L).privacy_level_attr = Option.some (Option.some L)) ∧
    (((qs.privacy_level L).filter q1).privacy_level_attr = Option.some (Option.some L)) ∧
    (((qs.privacy_level L).exclude q2).privacy_level_attr = Option.some (Option.some L)) ∧
    ((qs.privacy_level L).all.privacy_level_attr = Option.some (Option.some L)) ∧
    ((qs.privacy_level L)._clone.privacy_level_attr = Option.some (Option.some L)) ∧
    ((qs.privacy_level L).values.privacy_level_attr = Option.some (Option.some L)) ∧
    ((qs.privacy_level L).values._clone.privacy_level_attr = Option.some (Option.some L)) ∧
    (∀ (base : List Profile) (c : Profile → Bool),
      (UserProfileQuerySet.mk base c Option.none)._clone.privacy_level_attr
        = Option.some Option.none) :=
  ⟨rfl, rfl, rfl, rfl, rfl, rfl, rfl, fun _ _ => rfl⟩

/-- C9: public_indexable() and not_public_indexable() partition the complete
profiles: a profile of the queryset with non-empty full_name lies in
exactly one of the two results, it lies in public_indexable() iff some
public-indexable field is stored PUBLIC with a non-empty value, and a
profile with empty full_name lies in neither. -/
theorem public_indexable_partition_of_complete
    (qs : UserProfileQuerySet) (p : Profile)
    (hp : p ∈ qs.results) :
    (p.full_name ≠ "" →
      ((p ∈ qs.public_indexable.results ∧ p ∉ qs.not_public_indexable.results) ∨
        (p ∉ qs.public_indexable.results ∧ p ∈ qs.not_public_indexable.results)) ∧
      (p ∈ qs.public_indexable.results ↔
        ((p.privacy_full_name = PUBLIC ∧ p.full_name ≠ "") ∨
          (p.privacy_ircname = PUBLIC ∧ p.ircname ≠ "") ∨
          (p.privacy_email = PUBLIC ∧ p.user_email ≠ "")))) ∧
    (p.full_name = "" →
      p ∉ qs.public_indexable.results ∧ p ∉ qs.not_public_indexable.results) := by
  obtain ⟨hpb, hpc⟩ := List.mem_filter.mp hp
  have hPI : p ∈ qs.public_indexable.results ↔
      p ∈ qs.base ∧ qs.cond p = true ∧ p.full_name ≠ "" ∧
        UserProfileQuerySet.public_index_q p = true := by
    simp [UserProfileQuerySet.results, UserProfileQuerySet.public_indexable,
      UserProfileQuerySet.complete, UserProfileQuerySet.filter,
      UserProfileQuerySet.exclude, UserProfileQuerySet._clone,
      List.mem_filter, and_assoc]
  have hNPI : p ∈ qs.not_public_indexable.results ↔
      p ∈ qs.base ∧ qs.cond p = true ∧ p.full_name ≠ "" ∧
        ¬UserProfileQuerySet.public_index_q p = true := by
    simp [UserProfileQuerySet.results, UserProfileQuerySet.not_public_indexable,
      UserProfileQuerySet.complete, UserProfileQuerySet.filter,
      UserProfileQuerySet.exclude, UserProfileQuerySet._clone,
      List.mem_filter, and_assoc]
  have hq : UserProfileQuerySet.public_index_q p = true ↔
      ((p.privacy_full_name = PUBLIC ∧ p.full_name ≠ "") ∨
        (p.privacy_ircname = PUBLIC ∧ p.ircname ≠ "") ∨
        (p.privacy_email = PUBLIC ∧ p.user_email ≠ "")) := by
    simp [UserProfileQuerySet.public_index_q, and_comm, or_assoc]
  constructor
  · intro hfn
    constructor
    · by_cases hb : UserProfileQuerySet.public_index_q p = true
      · exact Or.inl ⟨hPI.mpr ⟨hpb, hpc, hfn, hb⟩, fun hn => (hNPI.mp hn).2.2.2 hb⟩
      · exact Or.inr ⟨fun hn => hb (hPI.mp hn).2.2.2, hNPI.mpr ⟨hpb, hpc, hfn, hb⟩⟩
    · rw [hPI, ← hq]
      constructor
      · intro h
        exact h.2.2.2
      · intro h
        exact ⟨hpb, hpc, hfn, h⟩
  · intro hfn
    exact ⟨fun hn => (hPI.mp hn).2.2.1 hfn, fun hn => (hNPI.mp hn).2.2.1 hfn⟩

/-- Witness for C9: a complete profile with a PUBLIC full_name is
public-indexable. -/
theorem public_indexable_partition_of_complete_witness :
    Profile.mk "Alice" "ali" "a@b.c" 4 3 3 ∈
      (UserProfileQuerySet.mk [Profile.mk "Alice" "ali" "a@b.c" 4 3 3]
        (fun _ => true) Option.none).public_indexable.results :=
  ((public_indexable_partition_of_complete
    (UserProfileQuerySet.mk [Profile.mk "Alice" "ali" "a@b.c" 4 3 3]
      (fun _ => true) Option.none)
    (Profile.mk "Alice" "ali" "a@b.c" 4 3 3)
    (by decide)).1 (by decide)).2.mpr
    (Or.inl ⟨by decide, by decide⟩)
